import Mathlib

/-
Verification of the ts-job-tracker CLI (src/index.ts) against its
specification.  The program is embedded shallowly: the persisted file is a
JSON document (`Option Json`, `none` = file absent), the five CLI commands
are pure functions from the argument vector and the file state to a
`MainResult` (exit code, stdout lines, stderr lines, resulting file state),
and the nondeterministic environment inputs (generated id, current
timestamp, locale date rendering) are explicit parameters.
-/

namespace JobTracker

/-- One tracked job application (interface `JobApplication`, src/index.ts
lines 7-14).  `status` is a plain string in the source's runtime
representation; validity is checked by `isStatus`.  `notes` models the
optional field `notes?`. -/
structure JobApplication where
  id : String
  company : String
  role : String
  status : String
  createdAt : String
  notes : Option String
  deriving DecidableEq, Repr

/-- JSON values, as far as the program's store can contain them: the store is
always an array of objects with string fields.  `JSON.stringify` / `JSON.parse`
are modelled as the identity on this tree, which is exact for the values the
program writes (strings contain no lone surrogates, objects keep insertion
order, `undefined` fields are omitted by `encodeJob`). -/
inductive Json where
  | str (s : String)
  | arr (elems : List Json)
  | obj (fields : List (String × Json))

/-- The five valid status values (type `JobStatus`, src/index.ts line 5). -/
def statusValues : List String := ["saved", "applied", "interview", "offer", "rejected"]

/-- `isStatus` (src/index.ts lines 61-63): membership test against the literal
status list. -/
def isStatus (value : String) : Bool := statusValues.contains value

/-- JavaScript `String.prototype.trim`: strip whitespace from both ends.
(Lean's own `String.trim` is not used because its definition does not reduce
in the kernel.) -/
def jsTrim (s : String) : String :=
  String.mk (((s.data.dropWhile Char.isWhitespace).reverse.dropWhile Char.isWhitespace).reverse)

/-- `requireArg` (src/index.ts lines 52-58): a missing or blank (empty after
trimming) value prints `Missing required argument: <name>` and exits 1,
modelled as `Except.error` carrying the stderr line; otherwise the value is
returned untrimmed. -/
def requireArg (value : Option String) (name : String) : Except String String :=
  match value with
  | none => Except.error ("Missing required argument: " ++ name)
  | some v =>
    if jsTrim v = "" then Except.error ("Missing required argument: " ++ name)
    else Except.ok v

/-- Serialization of one entry, mirroring `JSON.stringify` on the object
literal of src/index.ts lines 83-90: keys in insertion order, the `notes` key
omitted when the field is `undefined`. -/
def encodeJob (j : JobApplication) : Json :=
  Json.obj
    ([("id", Json.str j.id), ("company", Json.str j.company),
      ("role", Json.str j.role), ("status", Json.str j.status),
      ("createdAt", Json.str j.createdAt)] ++
      (match j.notes with
       | some n => [("notes", Json.str n)]
       | none => []))

/-- Serialization of the whole collection (a JSON array, newest first). -/
def encodeJobs (jobs : List JobApplication) : Json := Json.arr (jobs.map encodeJob)

/-- Object field lookup (first occurrence of the key). -/
def getField (fields : List (String × Json)) (key : String) : Option Json :=
  match fields.find? (fun p => p.fst == key) with
  | some p => some p.snd
  | none => none

/-- Read a JSON string value. -/
def asString : Json → Option String
  | Json.str s => some s
  | _ => none

/-- Reading one entry back.  The source casts the parsed value unchecked
(`as JobApplication[]`); a value without the expected shape is modelled as a
decode failure (`none`). -/
def decodeJob : Json → Option JobApplication
  | Json.obj fields =>
    match getField fields "id" >>= asString, getField fields "company" >>= asString,
          getField fields "role" >>= asString, getField fields "status" >>= asString,
          getField fields "createdAt" >>= asString with
    | some i, some c, some r, some st, some ca =>
      match getField fields "notes" with
      | none =>
        some { id := i, company := c, role := r, status := st, createdAt := ca, notes := none }
      | some v =>
        match asString v with
        | some n =>
          some { id := i, company := c, role := r, status := st, createdAt := ca, notes := some n }
        | none => none
    | _, _, _, _, _ => none
  | _ => none

/-- Reading a list of entries back, failing as soon as one element fails. -/
def decodeJobList : List Json → Option (List JobApplication)
  | [] => some []
  | e :: rest =>
    match decodeJob e, decodeJobList rest with
    | some j, some l => some (j :: l)
    | _, _ => none

/-- Reading the collection back (a JSON array of entries). -/
def decodeJobs : Json → Option (List JobApplication)
  | Json.arr elems => decodeJobList elems
  | _ => none

/-- `loadJobs` (src/index.ts lines 18-22): when the backing file does not
exist the empty collection is returned; otherwise the file is parsed.  A file
whose contents do not decode to the expected shape is `none` (in the source
this is a parse exception or the unchecked cast admitting garbage; no claim
depends on that branch). -/
def loadJobs (file : Option Json) : Option (List JobApplication) :=
  match file with
  | none => some []
  | some j => decodeJobs j

/-- `saveJobs` (src/index.ts lines 24-26): overwrite the backing file with the
serialized collection. -/
def saveJobs (jobs : List JobApplication) : Option Json := some (encodeJobs jobs)

/-- The static usage text printed by `printHelp` (src/index.ts lines 32-50). -/
def helpText : String :=
  "\nJob Tracker (TypeScript CLI)\n\nCommands:\n  add \"<company>\" \"<role>\" [status] [notes]\n  list\n  update <id> <status>\n  remove <id>\n  help\n\nStatuses: saved | applied | interview | offer | rejected\n\nExamples:\n  npm run dev -- add \"Google\" \"Software Engineer\" applied \"Reached out via referral\"\n  npm run dev -- list\n  npm run dev -- update 1700000000-ab12 applied\n"

/-- The observable outcome of one invocation: process exit code, stdout lines,
stderr lines, and the state of the backing file afterwards. -/
structure MainResult where
  exitCode : Nat
  stdout : List String
  stderr : List String
  file : Option Json

/-- An error path that prints one stderr line and exits 1 without touching the
file (`console.error` + `process.exit(1)`). -/
def errResult (msg : String) (file : Option Json) : MainResult :=
  { exitCode := 1, stdout := [], stderr := [msg], file := file }

/-- The `help` outcome: usage text on stdout, exit 0, file untouched. -/
def helpResult (file : Option Json) : MainResult :=
  { exitCode := 0, stdout := [helpText], stderr := [], file := file }

/-- The condition `maybeStatus && isStatus(maybeStatus)` of src/index.ts
lines 79 and 81: the third token counts as a status when it is truthy
(present and non-empty) and a valid status value. -/
def addStatusTaken (maybeStatus : Option String) : Bool :=
  match maybeStatus with
  | some s => (s != "") && isStatus s
  | none => false

/-- The `add` command (src/index.ts lines 74-98).  `freshId` models
`makeId()` and `nowIso` models `new Date().toISOString()`.  The third
positional token is taken as the status when `addStatusTaken` holds; the
remaining tokens are joined with single spaces into `notes`, which stays
unset when the joined string is empty (`|| undefined`). -/
def runAdd (args : List String) (jobs : List JobApplication) (file : Option Json)
    (freshId nowIso : String) : MainResult :=
  match requireArg (args.get? 0) "company" with
  | Except.error msg => errResult msg file
  | Except.ok company =>
    match requireArg (args.get? 1) "role" with
    | Except.error msg => errResult msg file
    | Except.ok role =>
      let maybeStatus := args.get? 2
      let statusTaken : Bool := addStatusTaken maybeStatus
      let status : String := if statusTaken then maybeStatus.getD "saved" else "saved"
      let joined := " ".intercalate (args.drop (if statusTaken then 3 else 2))
      let notes : Option String := if joined == "" then none else some joined
      let newJob : JobApplication :=
        { id := freshId, company := company, role := role, status := status,
          createdAt := nowIso, notes := notes }
      let updated := newJob :: jobs
      { exitCode := 0,
        stdout := ["✅ Added: " ++ company ++ " — " ++ role ++ " (" ++ status ++ ")",
                   "   id: " ++ freshId],
        stderr := [], file := saveJobs updated }

/-- Rendering of one entry by `list` (src/index.ts lines 107-114).  `locale`
models `new Date(s).toLocaleString()`.  The notes line is printed only when
`notes` is truthy (present and non-empty). -/
def renderJob (locale : String → String) (j : JobApplication) : List String :=
  ["- " ++ j.company ++ " — " ++ j.role,
   "  id: " ++ j.id,
   "  status: " ++ j.status,
   "  created: " ++ locale j.createdAt] ++
  (match j.notes with
   | some n => if n == "" then [] else ["  notes: " ++ n]
   | none => []) ++ [""]

/-- The `list` command (src/index.ts lines 100-116): read-only; an empty
collection prints the bootstrap message. -/
def runList (jobs : List JobApplication) (file : Option Json)
    (locale : String → String) : MainResult :=
  if jobs.length == 0 then
    { exitCode := 0,
      stdout := ["No jobs saved yet. Add one with: npm run dev -- add \"Company\" \"Role\""],
      stderr := [], file := file }
  else
    { exitCode := 0,
      stdout := ("\n📌 Job Applications (" ++ toString jobs.length ++ ")\n")
                  :: (jobs.map (renderJob locale)).flatten,
      stderr := [], file := file }

/-- The in-place mutation `jobs[findIndex].status = st` of src/index.ts
lines 128-134, rendered functionally: update the status of the first entry
whose id matches, `none` when `findIndex` gives -1. -/
def updateStatusFirst (id st : String) : List JobApplication → Option (List JobApplication)
  | [] => none
  | j :: rest =>
    if j.id == id then some ({ j with status := st } :: rest)
    else
      match updateStatusFirst id st rest with
      | some rest2 => some (j :: rest2)
      | none => none

/-- The `update` command (src/index.ts lines 118-138). -/
def runUpdate (args : List String) (jobs : List JobApplication)
    (file : Option Json) : MainResult :=
  match requireArg (args.get? 0) "id" with
  | Except.error msg => errResult msg file
  | Except.ok id =>
    match requireArg (args.get? 1) "status" with
    | Except.error msg => errResult msg file
    | Except.ok newStatusRaw =>
      if !isStatus newStatusRaw then
        { exitCode := 1, stdout := [helpText],
          stderr := ["Invalid status: " ++ newStatusRaw], file := file }
      else
        match updateStatusFirst id newStatusRaw jobs with
        | none => errResult ("No job found with id: " ++ id) file
        | some jobs2 =>
          { exitCode := 0, stdout := ["✅ Updated " ++ id ++ " → " ++ newStatusRaw],
            stderr := [], file := saveJobs jobs2 }

/-- The `remove` command (src/index.ts lines 141-151). -/
def runRemove (args : List String) (jobs : List JobApplication)
    (file : Option Json) : MainResult :=
  match requireArg (args.get? 0) "id" with
  | Except.error msg => errResult msg file
  | Except.ok id =>
    let filtered := jobs.filter (fun j => j.id != id)
    if filtered.length == jobs.length then
      errResult ("No job found with id: " ++ id) file
    else
      { exitCode := 0, stdout := ["🗑️ Removed " ++ id], stderr := [],
        file := saveJobs filtered }

/-- `main` (src/index.ts lines 65-155).  The store is loaded unconditionally
first; an undecodable store is a fatal condition (modelled with a dedicated
result).  An undefined or empty first token falls back to help (the source
tests `!command`, and the empty string is falsy).  Note the unknown-command
arm: the source prints the error and the help text but never calls
`process.exit`, so the process exit code there is 0. -/
def main (argv : List String) (file : Option Json) (freshId nowIso : String)
    (locale : String → String) : MainResult :=
  match loadJobs file with
  | none => { exitCode := 1, stdout := [], stderr := ["CorruptStore"], file := file }
  | some jobs =>
    match argv.head? with
    | none => helpResult file
    | some command =>
      if command == "" || command == "help" then helpResult file
      else if command == "add" then runAdd argv.tail jobs file freshId nowIso
      else if command == "list" then runList jobs file locale
      else if command == "update" then runUpdate argv.tail jobs file
      else if command == "remove" then runRemove argv.tail jobs file
      else
        { exitCode := 0, stdout := [helpText],
          stderr := ["Unknown command: " ++ command], file := file }

/-- A sample stored entry, used to instantiate theorems at concrete inputs. -/
def sampleJob1 : JobApplication :=
  { id := "a1", company := "Acme", role := "Dev", status := "saved",
    createdAt := "2026-01-01T00:00:00.000Z", notes := none }

/-- A second sample stored entry with notes. -/
def sampleJob2 : JobApplication :=
  { id := "b2", company := "Beta", role := "PM", status := "applied",
    createdAt := "2026-01-02T00:00:00.000Z", notes := some "ref" }

example :
    (main ["list"] none "i" "t" (fun s => s)).stdout =
      ["No jobs saved yet. Add one with: npm run dev -- add \"Company\" \"Role\""] := by
  rfl

example :
    (main ["add", "Acme", "Engineer", "applied", "ref", "note"] none "i1" "t1"
        (fun s => s)).file =
      saveJobs [{ id := "i1", company := "Acme", role := "Engineer", status := "applied",
                  createdAt := "t1", notes := some "ref note" }] := by
  rfl

example :
    (main ["add", "Acme", "Engineer", "some", "note"] none "i1" "t1" (fun s => s)).file =
      saveJobs [{ id := "i1", company := "Acme", role := "Engineer", status := "saved",
                  createdAt := "t1", notes := some "some note" }] := by
  rfl

/-- Decoding inverts encoding on a single entry. -/
theorem decodeJob_encodeJob (j : JobApplication) : decodeJob (encodeJob j) = some j := by
  cases j with
  | mk i c r st ca notes => cases notes <;> rfl

/-- Decoding inverts encoding on the whole collection. -/
theorem decodeJobs_encodeJobs (l : List JobApplication) :
    decodeJobs (encodeJobs l) = some l := by
  induction l with
  | nil => rfl
  | cons j rest ih =>
    have hrest : decodeJobList (rest.map encodeJob) = some rest := ih
    simp only [encodeJobs, decodeJobs, List.map_cons, decodeJobList,
      decodeJob_encodeJob]
    simp only [encodeJobs, decodeJobs] at hrest
    rw [hrest]

/-- Loading a just-saved collection gives it back. -/
theorem loadJobs_saveJobs (l : List JobApplication) : loadJobs (saveJobs l) = some l := by
  simpa [loadJobs, saveJobs] using decodeJobs_encodeJobs l

/-- A present, non-blank argument passes `requireArg` and is returned verbatim. -/
theorem requireArg_ok (v name : String) (h : jsTrim v ≠ "") :
    requireArg (some v) name = Except.ok v := by
  simp [requireArg, h]

/-- A valid status is one of the five literal values. -/
theorem isStatus_cases (s : String) (h : isStatus s = true) :
    s = "saved" ∨ s = "applied" ∨ s = "interview" ∨ s = "offer" ∨ s = "rejected" := by
  have hmem : s ∈ statusValues := List.elem_iff.mp h
  simpa [statusValues] using hmem

/-- A member of the status list is a valid status. -/
theorem isStatus_of_mem (s : String) (h : s ∈ statusValues) : isStatus s = true :=
  List.elem_iff.mpr h

/-- A valid status is not blank, so it passes `requireArg`. -/
theorem jsTrim_ne_of_isStatus (s : String) (h : isStatus s = true) : jsTrim s ≠ "" := by
  rcases isStatus_cases s h with h | h | h | h | h <;> subst h <;> decide

/-- A valid status is a truthy (non-empty) string. -/
theorem bne_empty_of_isStatus (s : String) (h : isStatus s = true) : (s != "") = true := by
  rcases isStatus_cases s h with h | h | h | h | h <;> subst h <;> decide

/-- Dispatch: an `update` invocation runs `runUpdate` on the loaded collection. -/
theorem main_update_eq (args : List String) (file : Option Json)
    (jobs : List JobApplication) (freshId nowIso : String) (locale : String → String)
    (h : loadJobs file = some jobs) :
    main ("update" :: args) file freshId nowIso locale = runUpdate args jobs file := by
  unfold main
  rw [h]
  rfl

/-- Dispatch: an `add` invocation runs `runAdd` on the loaded collection. -/
theorem main_add_eq (args : List String) (file : Option Json)
    (jobs : List JobApplication) (freshId nowIso : String) (locale : String → String)
    (h : loadJobs file = some jobs) :
    main ("add" :: args) file freshId nowIso locale = runAdd args jobs file freshId nowIso := by
  unfold main
  rw [h]
  rfl

/-- Dispatch: a `remove` invocation runs `runRemove` on the loaded collection. -/
theorem main_remove_eq (args : List String) (file : Option Json)
    (jobs : List JobApplication) (freshId nowIso : String) (locale : String → String)
    (h : loadJobs file = some jobs) :
    main ("remove" :: args) file freshId nowIso locale = runRemove args jobs file := by
  unfold main
  rw [h]
  rfl

/-- `updateStatusFirst` on a decomposed list: the prefix has no matching id,
the middle entry matches, so exactly its status is replaced. -/
theorem updateStatusFirst_append (X st : String) (j : JobApplication)
    (pre suf : List JobApplication) (hpre : ∀ k ∈ pre, k.id ≠ X) (hid : j.id = X) :
    updateStatusFirst X st (pre ++ j :: suf) =
      some (pre ++ { j with status := st } :: suf) := by
  induction pre with
  | nil => simp [updateStatusFirst, hid]
  | cons k pre ih =>
    have hk : (k.id == X) = false := by simp [hpre k (by simp)]
    have ih2 := ih (fun m hm => hpre m (by simp [hm]))
    simp [updateStatusFirst, hk, ih2]

/-- `updateStatusFirst` fails exactly like `findIndex` when no id matches. -/
theorem updateStatusFirst_none (X st : String) (jobs : List JobApplication)
    (h : ∀ j ∈ jobs, j.id ≠ X) : updateStatusFirst X st jobs = none := by
  induction jobs with
  | nil => rfl
  | cons j rest ih =>
    have hj : (j.id == X) = false := by simp [h j (by simp)]
    simp [updateStatusFirst, hj, ih (fun k hk => h k (by simp [hk]))]

/-- A collection containing a matching id splits around its first match. -/
theorem exists_first_match (X : String) :
    ∀ jobs : List JobApplication, (∃ j ∈ jobs, j.id = X) →
      ∃ pre j suf, jobs = pre ++ j :: suf ∧ j.id = X ∧ ∀ k ∈ pre, k.id ≠ X := by
  intro jobs
  induction jobs with
  | nil => rintro ⟨j, hj, _⟩; cases hj
  | cons a rest ih =>
    intro hex
    by_cases ha : a.id = X
    · exact ⟨[], a, rest, rfl, ha, by simp⟩
    · have hrest : ∃ j ∈ rest, j.id = X := by
        rcases hex with ⟨j, hj, hid⟩
        rcases List.mem_cons.mp hj with h | h
        · exact absurd hid (h ▸ ha)
        · exact ⟨j, h, hid⟩
      rcases ih hrest with ⟨pre, j, suf, heq, hid, hpre⟩
      refine ⟨a :: pre, j, suf, by rw [heq]; rfl, hid, ?_⟩
      intro k hk
      rcases List.mem_cons.mp hk with h | h
      · exact h ▸ ha
      · exact hpre k h

/-- Reduction of `runUpdate` when the target id exists. -/
theorem runUpdate_found (jobs jobs2 : List JobApplication) (X st : String)
    (file : Option Json) (hXt : jsTrim X ≠ "") (hst : isStatus st = true)
    (hup : updateStatusFirst X st jobs = some jobs2) :
    runUpdate [X, st] jobs file =
      { exitCode := 0, stdout := ["✅ Updated " ++ X ++ " → " ++ st],
        stderr := [], file := saveJobs jobs2 } := by
  have h1 : requireArg (some X) "id" = Except.ok X := requireArg_ok X "id" hXt
  have h2 : requireArg (some st) "status" = Except.ok st :=
    requireArg_ok st "status" (jsTrim_ne_of_isStatus st hst)
  simp [runUpdate, h1, h2, hst, hup]

/-- Reduction of `runUpdate` when the target id does not exist. -/
theorem runUpdate_notfound (jobs : List JobApplication) (X st : String)
    (file : Option Json) (hXt : jsTrim X ≠ "") (hst : isStatus st = true)
    (hup : updateStatusFirst X st jobs = none) :
    runUpdate [X, st] jobs file = errResult ("No job found with id: " ++ X) file := by
  have h1 : requireArg (some X) "id" = Except.ok X := requireArg_ok X "id" hXt
  have h2 : requireArg (some st) "status" = Except.ok st :=
    requireArg_ok st "status" (jsTrim_ne_of_isStatus st hst)
  simp [runUpdate, h1, h2, hst, hup, errResult]

/-- Reduction of `runRemove` when the target id occurs in the collection, so
the filtered collection is strictly shorter and the else branch persists it. -/
theorem runRemove_found (jobs : List JobApplication) (X : String) (file : Option Json)
    (hXt : jsTrim X ≠ "") (hex : ∃ j ∈ jobs, j.id = X) :
    runRemove [X] jobs file =
      { exitCode := 0, stdout := ["🗑️ Removed " ++ X], stderr := [],
        file := saveJobs (jobs.filter (fun j => j.id != X)) } := by
  have h1 : requireArg (some X) "id" = Except.ok X := requireArg_ok X "id" hXt
  have hnot : ¬ ∀ a ∈ jobs, ¬ a.id = X := by
    push_neg
    exact hex
  simp [runRemove, h1, hnot]

/-- Reduction of `runRemove` when no id matches: the filtered collection has
the original length and the error branch is taken. -/
theorem runRemove_notfound (jobs : List JobApplication) (X : String) (file : Option Json)
    (hXt : jsTrim X ≠ "") (hnone : ∀ j ∈ jobs, j.id ≠ X) :
    runRemove [X] jobs file = errResult ("No job found with id: " ++ X) file := by
  have h1 : requireArg (some X) "id" = Except.ok X := requireArg_ok X "id" hXt
  simp [runRemove, h1, errResult]
  exact hnone

/-- The filtered collection's length is the original minus the match count. -/
theorem length_filter_ne_id (X : String) (jobs : List JobApplication) :
    (jobs.filter (fun j => j.id != X)).length =
      jobs.length - jobs.countP (fun j => j.id == X) := by
  induction jobs with
  | nil => rfl
  | cons a rest ih =>
    have hle : rest.countP (fun j => j.id == X) ≤ rest.length := List.countP_le_length _
    by_cases h : a.id = X <;>
      simp [List.filter_cons, List.countP_cons, h, ih] <;> omega

/-- Filtering out an id that occurs nowhere keeps the collection intact. -/
theorem filter_eq_self_of_none (X : String) (jobs : List JobApplication)
    (h : ∀ j ∈ jobs, j.id ≠ X) : jobs.filter (fun j => j.id != X) = jobs :=
  List.filter_eq_self.mpr (fun a ha => by simp [h a ha])

/-- Filtering out an id that occurs strictly shrinks the collection. -/
theorem length_filter_lt_of_mem (X : String) (jobs : List JobApplication)
    (h : ∃ j ∈ jobs, j.id = X) :
    (jobs.filter (fun j => j.id != X)).length < jobs.length := by
  apply List.length_filter_lt_length_iff_exists.mpr
  rcases h with ⟨j, hj, hid⟩
  exact ⟨j, hj, by simp [hid]⟩

/-- Reduction of `runAdd` once company and role pass validation. -/
theorem runAdd_ok (args : List String) (jobs : List JobApplication) (file : Option Json)
    (company role freshId nowIso : String)
    (hc : jsTrim company ≠ "") (hr : jsTrim role ≠ "") :
    runAdd (company :: role :: args) jobs file freshId nowIso =
      (let statusTaken : Bool := addStatusTaken (args.get? 0)
      let status : String := if statusTaken then (args.get? 0).getD "saved" else "saved"
      let joined := " ".intercalate (args.drop (if statusTaken then 1 else 0))
      let notes : Option String := if joined == "" then none else some joined
      let newJob : JobApplication :=
        { id := freshId, company := company, role := role, status := status,
          createdAt := nowIso, notes := notes }
      { exitCode := 0,
        stdout := ["✅ Added: " ++ company ++ " — " ++ role ++ " (" ++ status ++ ")",
                   "   id: " ++ freshId],
        stderr := [], file := saveJobs (newJob :: jobs) }) := by
  have h1 : requireArg (some company) "company" = Except.ok company :=
    requireArg_ok company "company" hc
  have h2 : requireArg (some role) "role" = Except.ok role :=
    requireArg_ok role "role" hr
  simp only [runAdd, List.get?, h1, h2]
  rcases Bool.eq_false_or_eq_true (addStatusTaken (args.get? 0)) with hmatch | hmatch <;>
    simp only [hmatch] <;> rfl

/-- C6: saving any collection of well-formed entries with `saveJobs` and then
reloading it with `loadJobs` yields an equal collection: the same entries
with the same field values in the same order. -/
theorem save_load_roundtrip (jobs : List JobApplication) :
    loadJobs (saveJobs jobs) = some jobs :=
  loadJobs_saveJobs jobs

/-- C7: when the backing file does not exist, `loadJobs` returns the empty
collection rather than failing, and `list` on a fresh environment prints the
no-jobs message, exits 0, and does not create the file. -/
theorem list_fresh_bootstrap (freshId nowIso : String) (locale : String → String) :
    loadJobs none = some [] ∧
    main ["list"] none freshId nowIso locale =
      { exitCode := 0,
        stdout := ["No jobs saved yet. Add one with: npm run dev -- add \"Company\" \"Role\""],
        stderr := [], file := none } :=
  ⟨rfl, rfl⟩

/-- C1, evaluated at a failing input: on the unrecognized command
`frobnicate` the program prints the error indicator on stderr and the usage
help, but `main` then returns without calling `process.exit`, so the process
exit status is 0 — not non-zero as the claim states. -/
theorem unknown_command_exits_zero :
    main ["frobnicate"] none "i" "t" (fun s => s) =
      { exitCode := 0, stdout := [helpText],
        stderr := ["Unknown command: frobnicate"], file := none } :=
  rfl

/-- C3: updating an id that occurs nowhere in the stored collection fails
with the not-found message on stderr, exit status 1, and performs no
persistence: the backing file is exactly the one that was loaded. -/
theorem update_notfound_no_persist (jobs : List JobApplication)
    (X st freshId nowIso : String) (locale : String → String)
    (hXt : jsTrim X ≠ "") (hst : isStatus st = true)
    (hnone : ∀ j ∈ jobs, j.id ≠ X) :
    main ["update", X, st] (saveJobs jobs) freshId nowIso locale =
      { exitCode := 1, stdout := [], stderr := ["No job found with id: " ++ X],
        file := saveJobs jobs } := by
  rw [main_update_eq [X, st] (saveJobs jobs) jobs freshId nowIso locale
    (loadJobs_saveJobs jobs)]
  rw [runUpdate_notfound jobs X st (saveJobs jobs) hXt hst
    (updateStatusFirst_none X st jobs hnone)]
  rfl

theorem update_notfound_no_persist_witness :
    main ["update", "zzz", "applied"] (saveJobs [sampleJob1]) "i" "t" (fun s => s) =
      { exitCode := 1, stdout := [], stderr := ["No job found with id: zzz"],
        file := saveJobs [sampleJob1] } :=
  update_notfound_no_persist [sampleJob1] "zzz" "applied" "i" "t" (fun s => s)
    (by decide) (by decide) (by decide)

/-- C2: for every stored collection containing an entry with id `X` and
every valid status, `update X <status>` succeeds and persists a collection
that differs from the original only in the status field of the first entry
whose id is `X`: the decomposition `pre ++ j :: suf` keeps every other entry
(and every other field of `j`) identical, with length and order unchanged. -/
theorem update_changes_only_status (jobs : List JobApplication)
    (X st freshId nowIso : String) (locale : String → String)
    (hXt : jsTrim X ≠ "") (hst : isStatus st = true)
    (hfound : ∃ j ∈ jobs, j.id = X) :
    ∃ pre j suf,
      jobs = pre ++ j :: suf ∧ j.id = X ∧ (∀ k ∈ pre, k.id ≠ X) ∧
      main ["update", X, st] (saveJobs jobs) freshId nowIso locale =
        { exitCode := 0, stdout := ["✅ Updated " ++ X ++ " → " ++ st], stderr := [],
          file := saveJobs (pre ++ { j with status := st } :: suf) } ∧
      (pre ++ ({ j with status := st } : JobApplication) :: suf).length = jobs.length ∧
      ({ j with status := st } : JobApplication).id = j.id ∧
      ({ j with status := st } : JobApplication).company = j.company ∧
      ({ j with status := st } : JobApplication).role = j.role ∧
      ({ j with status := st } : JobApplication).createdAt = j.createdAt ∧
      ({ j with status := st } : JobApplication).notes = j.notes ∧
      ({ j with status := st } : JobApplication).status = st := by
  rcases exists_first_match X jobs hfound with ⟨pre, j, suf, heq, hid, hpre⟩
  refine ⟨pre, j, suf, heq, hid, hpre, ?_, ?_, rfl, rfl, rfl, rfl, rfl, rfl⟩
  · rw [main_update_eq [X, st] (saveJobs jobs) jobs freshId nowIso locale
      (loadJobs_saveJobs jobs)]
    refine runUpdate_found jobs _ X st (saveJobs jobs) hXt hst ?_
    rw [heq]
    exact updateStatusFirst_append X st j pre suf hpre hid
  · rw [heq]
    simp

theorem update_changes_only_status_witness :
    ∃ pre j suf,
      [sampleJob1, sampleJob2] = pre ++ j :: suf ∧ j.id = "b2" ∧
      (∀ k ∈ pre, k.id ≠ "b2") ∧
      main ["update", "b2", "offer"] (saveJobs [sampleJob1, sampleJob2]) "i" "t"
          (fun s => s) =
        { exitCode := 0, stdout := ["✅ Updated " ++ "b2" ++ " → " ++ "offer"],
          stderr := [],
          file := saveJobs (pre ++ { j with status := "offer" } :: suf) } ∧
      (pre ++ ({ j with status := "offer" } : JobApplication) :: suf).length =
        [sampleJob1, sampleJob2].length ∧
      ({ j with status := "offer" } : JobApplication).id = j.id ∧
      ({ j with status := "offer" } : JobApplication).company = j.company ∧
      ({ j with status := "offer" } : JobApplication).role = j.role ∧
      ({ j with status := "offer" } : JobApplication).createdAt = j.createdAt ∧
      ({ j with status := "offer" } : JobApplication).notes = j.notes ∧
      ({ j with status := "offer" } : JobApplication).status = "offer" :=
  update_changes_only_status [sampleJob1, sampleJob2] "b2" "offer" "i" "t"
    (fun s => s) (by decide) (by decide) ⟨sampleJob2, by decide, by decide⟩

/-- C8: when the first entry with id `X` already has the requested status,
`update X <status>` still succeeds (exit 0) and persists, the stored
collection equals the original, and running the same update a second time
yields the same result as the first run. -/
theorem update_idempotent (pre suf : List JobApplication) (j : JobApplication)
    (X st freshId nowIso : String) (locale : String → String)
    (hXt : jsTrim X ≠ "") (hst : isStatus st = true)
    (hpre : ∀ k ∈ pre, k.id ≠ X) (hid : j.id = X) (hstatus : j.status = st) :
    main ["update", X, st] (saveJobs (pre ++ j :: suf)) freshId nowIso locale =
      { exitCode := 0, stdout := ["✅ Updated " ++ X ++ " → " ++ st], stderr := [],
        file := saveJobs (pre ++ j :: suf) } ∧
    main ["update", X, st]
        (main ["update", X, st] (saveJobs (pre ++ j :: suf)) freshId nowIso locale).file
        freshId nowIso locale =
      main ["update", X, st] (saveJobs (pre ++ j :: suf)) freshId nowIso locale := by
  have hjeq : ({ j with status := st } : JobApplication) = j := by
    cases j
    cases hstatus
    rfl
  have hrun : main ["update", X, st] (saveJobs (pre ++ j :: suf)) freshId nowIso locale =
      { exitCode := 0, stdout := ["✅ Updated " ++ X ++ " → " ++ st], stderr := [],
        file := saveJobs (pre ++ j :: suf) } := by
    rw [main_update_eq [X, st] (saveJobs (pre ++ j :: suf)) (pre ++ j :: suf)
      freshId nowIso locale (loadJobs_saveJobs (pre ++ j :: suf))]
    have hup := updateStatusFirst_append X st j pre suf hpre hid
    rw [hjeq] at hup
    exact runUpdate_found (pre ++ j :: suf) (pre ++ j :: suf) X st
      (saveJobs (pre ++ j :: suf)) hXt hst hup
  refine ⟨hrun, ?_⟩
  rw [hrun]
  exact hrun

theorem update_idempotent_witness :
    main ["update", "b2", "applied"] (saveJobs [sampleJob1, sampleJob2]) "i" "t"
        (fun s => s) =
      { exitCode := 0, stdout := ["✅ Updated " ++ "b2" ++ " → " ++ "applied"],
        stderr := [], file := saveJobs [sampleJob1, sampleJob2] } ∧
    main ["update", "b2", "applied"]
        (main ["update", "b2", "applied"] (saveJobs [sampleJob1, sampleJob2]) "i" "t"
          (fun s => s)).file "i" "t" (fun s => s) =
      main ["update", "b2", "applied"] (saveJobs [sampleJob1, sampleJob2]) "i" "t"
        (fun s => s) :=
  update_idempotent [sampleJob1] [] sampleJob2 "b2" "applied" "i" "t" (fun s => s)
    (by decide) (by decide) (by decide) (by decide) (by decide)

/-- C5: `remove X` on a stored collection with exactly one entry of id `X`
persists the filtered collection — one entry shorter, every remaining entry
unchanged and in order; with no entry of id `X` it exits 1 without
persisting; and with at least one match every matching entry is removed. -/
theorem remove_spec (jobs : List JobApplication) (X freshId nowIso : String)
    (locale : String → String) (hXt : jsTrim X ≠ "") :
    (jobs.countP (fun j => j.id == X) = 1 →
      main ["remove", X] (saveJobs jobs) freshId nowIso locale =
        { exitCode := 0, stdout := ["🗑️ Removed " ++ X], stderr := [],
          file := saveJobs (jobs.filter (fun j => j.id != X)) } ∧
      (jobs.filter (fun j => j.id != X)).length = jobs.length - 1 ∧
      List.Sublist (jobs.filter (fun j => j.id != X)) jobs) ∧
    ((∀ j ∈ jobs, j.id ≠ X) →
      main ["remove", X] (saveJobs jobs) freshId nowIso locale =
        { exitCode := 1, stdout := [], stderr := ["No job found with id: " ++ X],
          file := saveJobs jobs }) ∧
    (1 ≤ jobs.countP (fun j => j.id == X) →
      main ["remove", X] (saveJobs jobs) freshId nowIso locale =
        { exitCode := 0, stdout := ["🗑️ Removed " ++ X], stderr := [],
          file := saveJobs (jobs.filter (fun j => j.id != X)) } ∧
      ∀ j ∈ jobs.filter (fun j => j.id != X), j.id ≠ X) := by
  have hdispatch := main_remove_eq [X] (saveJobs jobs) jobs freshId nowIso locale
    (loadJobs_saveJobs jobs)
  have hfound : 0 < jobs.countP (fun j => j.id == X) →
      main ["remove", X] (saveJobs jobs) freshId nowIso locale =
        { exitCode := 0, stdout := ["🗑️ Removed " ++ X], stderr := [],
          file := saveJobs (jobs.filter (fun j => j.id != X)) } := by
    intro hpos
    rcases List.countP_pos_iff.mp hpos with ⟨j, hj, hjid⟩
    rw [hdispatch]
    exact runRemove_found jobs X (saveJobs jobs) hXt ⟨j, hj, by simpa using hjid⟩
  refine ⟨?_, ?_, ?_⟩
  · intro hone
    refine ⟨hfound (by omega), ?_, List.filter_sublist jobs⟩
    rw [length_filter_ne_id X jobs, hone]
  · intro hnone
    rw [hdispatch]
    rw [runRemove_notfound jobs X (saveJobs jobs) hXt hnone]
    rfl
  · intro hpos
    refine ⟨hfound (by omega), ?_⟩
    intro j hj
    have := (List.mem_filter.mp hj).2
    simpa using this

theorem remove_spec_witness :
    ((([sampleJob1, sampleJob2] : List JobApplication).countP
        (fun j => j.id == "a1") = 1) →
      main ["remove", "a1"] (saveJobs [sampleJob1, sampleJob2]) "i" "t" (fun s => s) =
        { exitCode := 0, stdout := ["🗑️ Removed " ++ "a1"], stderr := [],
          file := saveJobs (([sampleJob1, sampleJob2] : List JobApplication).filter
            (fun j => j.id != "a1")) } ∧
      (([sampleJob1, sampleJob2] : List JobApplication).filter
        (fun j => j.id != "a1")).length =
          ([sampleJob1, sampleJob2] : List JobApplication).length - 1 ∧
      List.Sublist (([sampleJob1, sampleJob2] : List JobApplication).filter
        (fun j => j.id != "a1")) [sampleJob1, sampleJob2]) ∧
    ((∀ j ∈ ([sampleJob1, sampleJob2] : List JobApplication), j.id ≠ "a1") →
      main ["remove", "a1"] (saveJobs [sampleJob1, sampleJob2]) "i" "t" (fun s => s) =
        { exitCode := 1, stdout := [], stderr := ["No job found with id: " ++ "a1"],
          file := saveJobs [sampleJob1, sampleJob2] }) ∧
    (1 ≤ ([sampleJob1, sampleJob2] : List JobApplication).countP
        (fun j => j.id == "a1") →
      main ["remove", "a1"] (saveJobs [sampleJob1, sampleJob2]) "i" "t" (fun s => s) =
        { exitCode := 0, stdout := ["🗑️ Removed " ++ "a1"], stderr := [],
          file := saveJobs (([sampleJob1, sampleJob2] : List JobApplication).filter
            (fun j => j.id != "a1")) } ∧
      ∀ j ∈ ([sampleJob1, sampleJob2] : List JobApplication).filter
          (fun j => j.id != "a1"), j.id ≠ "a1") :=
  remove_spec [sampleJob1, sampleJob2] "a1" "i" "t" (fun s => s) (by decide)

/-- C9: required arguments are validated as non-blank after trimming but
stored verbatim — when company and role carry surrounding whitespace around
non-whitespace content, the created entry stores the untrimmed tokens
exactly as supplied. -/
theorem add_stores_untrimmed (jobs : List JobApplication)
    (company role freshId nowIso : String) (locale : String → String)
    (hc : jsTrim company ≠ "") (hr : jsTrim role ≠ "")
    (hcw : company ≠ jsTrim company) (hrw : role ≠ jsTrim role) :
    main ["add", company, role] (saveJobs jobs) freshId nowIso locale =
      { exitCode := 0,
        stdout := ["✅ Added: " ++ company ++ " — " ++ role ++ " (" ++ "saved" ++ ")",
                   "   id: " ++ freshId],
        stderr := [],
        file := saveJobs
          ({ id := freshId, company := company, role := role,
             status := "saved", createdAt := nowIso, notes := none } :: jobs) } := by
  rw [main_add_eq [company, role] (saveJobs jobs) jobs freshId nowIso locale
    (loadJobs_saveJobs jobs)]
  rw [runAdd_ok [] jobs (saveJobs jobs) company role freshId nowIso hc hr]
  rfl

theorem add_stores_untrimmed_witness :
    main ["add", " Acme ", " Engineer "] (saveJobs []) "i1" "t1" (fun s => s) =
      { exitCode := 0,
        stdout := ["✅ Added: " ++ " Acme " ++ " — " ++ " Engineer " ++ " (" ++
                     "saved" ++ ")",
                   "   id: " ++ "i1"],
        stderr := [],
        file := saveJobs
          ({ id := "i1", company := " Acme ", role := " Engineer ",
             status := "saved", createdAt := "t1", notes := none } :: []) } :=
  add_stores_untrimmed [] " Acme " " Engineer " "i1" "t1" (fun s => s)
    (by decide) (by decide) (by decide) (by decide)

/-- C4: with company and role present, the third positional token is the
status exactly when it is (case-sensitively) one of the five valid values,
otherwise the status defaults to `saved` and the third token starts the
notes; the remaining tokens are joined with single spaces, and an empty
joined string leaves notes unset instead of storing an empty string. -/
theorem add_status_and_notes (jobs : List JobApplication)
    (company role freshId nowIso : String) (rest : List String)
    (locale : String → String)
    (hc : jsTrim company ≠ "") (hr : jsTrim role ≠ "") :
    (main ("add" :: company :: role :: rest) (saveJobs jobs)
        freshId nowIso locale).exitCode = 0 ∧
    (main ("add" :: company :: role :: rest) (saveJobs jobs)
        freshId nowIso locale).file =
      saveJobs
        ({ id := freshId, company := company, role := role,
           status :=
             match rest.head? with
             | some t => if t ∈ statusValues then t else "saved"
             | none => "saved",
           createdAt := nowIso,
           notes :=
             (fun joined => if joined = "" then none else some joined)
               (" ".intercalate
                 (match rest.head? with
                  | some t => if t ∈ statusValues then rest.tail else rest
                  | none => rest)) } :: jobs) := by
  rw [main_add_eq (company :: role :: rest) (saveJobs jobs) jobs freshId nowIso locale
    (loadJobs_saveJobs jobs)]
  rw [runAdd_ok rest jobs (saveJobs jobs) company role freshId nowIso hc hr]
  cases rest with
  | nil => exact ⟨rfl, rfl⟩
  | cons t more =>
    refine ⟨rfl, ?_⟩
    by_cases hmem : t ∈ statusValues
    · have hs : isStatus t = true := isStatus_of_mem t hmem
      have hb : (t != "") = true := bne_empty_of_isStatus t hs
      simp [addStatusTaken, hs, hb, hmem]
    · have hsf : isStatus t = false := by
        rcases Bool.eq_false_or_eq_true (isStatus t) with h | h
        · exact absurd (List.elem_iff.mp h) hmem
        · exact h
      simp [addStatusTaken, hsf, hmem]

theorem add_status_and_notes_witness :
    (main ["add", "Acme", "Engineer", "referral note"] (saveJobs [])
        "i1" "t1" (fun s => s)).exitCode = 0 ∧
    (main ["add", "Acme", "Engineer", "referral note"] (saveJobs [])
        "i1" "t1" (fun s => s)).file =
      saveJobs
        ({ id := "i1", company := "Acme", role := "Engineer",
           status :=
             match (["referral note"] : List String).head? with
             | some t => if t ∈ statusValues then t else "saved"
             | none => "saved",
           createdAt := "t1",
           notes :=
             (fun joined => if joined = "" then none else some joined)
               (" ".intercalate
                 (match (["referral note"] : List String).head? with
                  | some t =>
                    if t ∈ statusValues then (["referral note"] : List String).tail
                    else ["referral note"]
                  | none => ["referral note"])) } :: []) :=
  add_status_and_notes [] "Acme" "Engineer" "i1" "t1" ["referral note"] (fun s => s)
    (by decide) (by decide)

/-- C10: each operation preserves the relative order of the entries it does
not create or delete — `add` prepends the new entry leaving the existing
suffix intact, `update` keeps every entry at its original position, and
`remove` keeps the surviving entries in their original relative order. -/
theorem ops_preserve_order (jobs : List JobApplication)
    (company role X st freshId nowIso : String) (rest : List String)
    (locale : String → String)
    (hc : jsTrim company ≠ "") (hr : jsTrim role ≠ "")
    (hXt : jsTrim X ≠ "") (hst : isStatus st = true)
    (hfound : ∃ j ∈ jobs, j.id = X) :
    (∃ newJob : JobApplication,
      (main ("add" :: company :: role :: rest) (saveJobs jobs)
          freshId nowIso locale).file = saveJobs (newJob :: jobs)) ∧
    (∃ jobs2 : List JobApplication,
      (main ["update", X, st] (saveJobs jobs) freshId nowIso locale).file =
        saveJobs jobs2 ∧
      jobs2.length = jobs.length ∧
      jobs2.map JobApplication.id = jobs.map JobApplication.id) ∧
    ((main ["remove", X] (saveJobs jobs) freshId nowIso locale).file =
        saveJobs (jobs.filter (fun j => j.id != X)) ∧
      List.Sublist (jobs.filter (fun j => j.id != X)) jobs) := by
  refine ⟨?_, ?_, ?_⟩
  · rw [main_add_eq (company :: role :: rest) (saveJobs jobs) jobs freshId nowIso locale
      (loadJobs_saveJobs jobs)]
    rw [runAdd_ok rest jobs (saveJobs jobs) company role freshId nowIso hc hr]
    exact ⟨_, rfl⟩
  · rcases exists_first_match X jobs hfound with ⟨pre, j, suf, heq, hid, hpre⟩
    refine ⟨pre ++ { j with status := st } :: suf, ?_, ?_, ?_⟩
    · rw [main_update_eq [X, st] (saveJobs jobs) jobs freshId nowIso locale
        (loadJobs_saveJobs jobs)]
      rw [runUpdate_found jobs (pre ++ { j with status := st } :: suf) X st
        (saveJobs jobs) hXt hst (by rw [heq]; exact updateStatusFirst_append X st j pre suf hpre hid)]
    · rw [heq]
      simp
    · rw [heq]
      simp
  · rw [main_remove_eq [X] (saveJobs jobs) jobs freshId nowIso locale
      (loadJobs_saveJobs jobs)]
    rw [runRemove_found jobs X (saveJobs jobs) hXt hfound]
    exact ⟨rfl, List.filter_sublist jobs⟩

theorem ops_preserve_order_witness :
    (∃ newJob : JobTracker.JobApplication,
      (main ["add", "Gamma", "QA"] (saveJobs [sampleJob1, sampleJob2])
          "i9" "t9" (fun s => s)).file =
        saveJobs (newJob :: [sampleJob1, sampleJob2])) ∧
    (∃ jobs2 : List JobApplication,
      (main ["update", "a1", "rejected"] (saveJobs [sampleJob1, sampleJob2])
          "i9" "t9" (fun s => s)).file = saveJobs jobs2 ∧
      jobs2.length = ([sampleJob1, sampleJob2] : List JobApplication).length ∧
      jobs2.map JobApplication.id =
        ([sampleJob1, sampleJob2] : List JobApplication).map JobApplication.id) ∧
    ((main ["remove", "a1"] (saveJobs [sampleJob1, sampleJob2])
        "i9" "t9" (fun s => s)).file =
      saveJobs (([sampleJob1, sampleJob2] : List JobApplication).filter
        (fun j => j.id != "a1")) ∧
      List.Sublist (([sampleJob1, sampleJob2] : List JobApplication).filter
        (fun j => j.id != "a1")) [sampleJob1, sampleJob2]) :=
  ops_preserve_order [sampleJob1, sampleJob2] "Gamma" "QA" "a1" "rejected" "i9" "t9"
    [] (fun s => s) (by decide) (by decide) (by decide) (by decide)
    ⟨sampleJob1, by decide, by decide⟩

end JobTracker
